import Mathlib

/-!
Verification of the SPM-1 store-and-forward pipeline (`src/main.py`).

The durable SQLite queue is embedded as a list of rows; the SQL statements of
`enqueue_to_db`, `flush_db_queue` and the inline prune are translated into pure
list operations.  Publish attempts against the MQTT channel are external, so a
channel is modelled as an oracle assigning an outcome to each successive
publish attempt of a flush call: acknowledged (`info.is_published()` true),
unacknowledged (`wait_for_publish` returns but `is_published()` is false), or
an exception raised by `publish`/`wait_for_publish`.  Storage operations are
modelled as reliable (their exception branches in the source only log).
-/

namespace Spm1

/-- A row of the SQLite `queue` table:
`id INTEGER PRIMARY KEY AUTOINCREMENT, topic TEXT, payload TEXT, ts TEXT,
sent INTEGER DEFAULT 0`. -/
structure QueueRecord where
  id : Nat
  topic : String
  payload : String
  ts : String
  sent : Bool
deriving DecidableEq, Repr

/-- The queue table, as the list of its rows in insertion (rowid) order. -/
abbrev Queue := List QueueRecord

/-- `MAX(id)` over the table (0 when the table is empty). -/
def maxId (q : Queue) : Nat := q.foldr (fun r m => max r.id m) 0

/-- The id AUTOINCREMENT assigns to the next inserted row. -/
def nextId (q : Queue) : Nat := maxId q + 1

/-- `enqueue_to_db`: `INSERT INTO queue (topic, payload, ts, sent) VALUES (?, ?, ?, 0)`. -/
def enqueue_to_db (q : Queue) (topic payload ts : String) : Queue :=
  q ++ [⟨nextId q, topic, payload, ts, false⟩]

/-- `UPDATE queue SET sent=1 WHERE id=?` (the mark-sent step of `flush_db_queue`). -/
def markSent (q : Queue) (i : Nat) : Queue :=
  q.map fun r => if r.id = i then { r with sent := true } else r

/-- Insertion step of the model of `ORDER BY id`. -/
def insertByID (r : QueueRecord) : List QueueRecord → List QueueRecord
  | [] => [r]
  | x :: xs => if r.id ≤ x.id then r :: x :: xs else x :: insertByID r xs

/-- Model of `ORDER BY id`: sort rows by ascending id (stable insertion sort). -/
def sortByID : List QueueRecord → List QueueRecord
  | [] => []
  | x :: xs => insertByID x (sortByID xs)

/-- `SELECT id, topic, payload FROM queue WHERE sent=0 ORDER BY id LIMIT ?`. -/
def pending (q : Queue) (limit : Nat) : List QueueRecord :=
  (sortByID (q.filter fun r => !r.sent)).take limit

/-- The cleanup statement of `flush_db_queue`:
`DELETE FROM queue WHERE sent=1 AND id < (SELECT IFNULL(MAX(id) - retain, 0)
FROM queue)`.  The source hardcodes `retain = 5000`; the subtraction is SQL
integer arithmetic, hence computed in `Int`.  `pruneThr` is the inner
`SELECT IFNULL(MAX(id) - retain, 0) FROM queue`. -/
def pruneThr (q : Queue) (retain : Nat) : Int :=
  if q.isEmpty then 0 else (maxId q : Int) - (retain : Int)

def prune (q : Queue) (retain : Nat) : Queue :=
  q.filter fun r => !(r.sent && decide ((r.id : Int) < pruneThr q retain))

/-- Outcome of one `client.publish` + `wait_for_publish` attempt. -/
inductive PubOutcome
  | acked
  | unacked
  | err
deriving DecidableEq, Repr

/-- A connected MQTT channel, as the oracle of outcomes of its successive
publish attempts within one flush call. -/
abbrev Channel := Nat → PubOutcome

/-- The `for row_id, topic, payload in rows` loop of `flush_db_queue`:
acknowledged publish marks the row sent and counts it; an unacknowledged
result only logs a warning and the loop continues; an exception `break`s. -/
def flushLoop : Queue → List QueueRecord → Channel → Nat → Nat → Queue × Nat
  | q, [], _, _, cnt => (q, cnt)
  | q, r :: rest, out, k, cnt =>
    match out k with
    | .acked => flushLoop (markSent q r.id) rest out (k + 1) (cnt + 1)
    | .unacked => flushLoop q rest out (k + 1) cnt
    | .err => (q, cnt)

/-- `flush_db_queue(client, max_batch)`: returns the updated table together
with `sent_count`.  A `None` client returns 0 at once; an empty pending
selection returns 0 before reaching the loop or the cleanup; otherwise the
publish loop runs and then the prune statement with retention 5000. -/
def flush_db_queue (client : Option Channel) (q : Queue) (maxBatch : Nat) :
    Queue × Nat :=
  match client with
  | none => (q, 0)
  | some out =>
    let rows := pending q maxBatch
    if rows.isEmpty then (q, 0)
    else
      let res := flushLoop q rows out 0 0
      (prune res.1 5000, res.2)

/-- The ids the flush loop marks sent, in marking order. -/
def markedIds : List QueueRecord → Channel → Nat → List Nat
  | [], _, _ => []
  | r :: rest, out, k =>
    match out k with
    | .acked => r.id :: markedIds rest out (k + 1)
    | .unacked => markedIds rest out (k + 1)
    | .err => []

/-- The rows for which the flush loop attempts a publish (the rows up to and
including the one whose attempt raises, if any). -/
def attempted : List QueueRecord → Channel → Nat → List QueueRecord
  | [], _, _ => []
  | r :: rest, out, k =>
    match out k with
    | .err => [r]
    | _ => r :: attempted rest out (k + 1)

/-- Apply `markSent` for each id in turn. -/
def applyMarks (q : Queue) (ids : List Nat) : Queue := ids.foldl markSent q

/-- The `sent` flag of the row with the given id (`none` when no such row). -/
def sentFlag (q : Queue) (i : Nat) : Option Bool :=
  (q.find? fun r => r.id = i).map (·.sent)

/-! ## Payload codec

`make_payload` builds an `OrderedDict` with the four fields and serializes it
with `json.dumps(body, ensure_ascii=False, separators=(",", ":"))`.  The
serialization is modelled at the character level.  Measurement values are
Python floats whose arithmetic is not modelled: a value is carried opaquely as
the numeral token `json.dumps` would emit for it (`repr` of the float), and
`round` becomes an arbitrary token transformer.  `json.dumps` escaping of
`"` and `\` inside strings is modelled; escaping of control characters is not
(no datum of this program contains them).  The `now_string()` clock read
inside `make_payload` is modelled as an explicit timestamp argument. -/

/-- Escape one character as `json.dumps` does for `"` and `\`. -/
def escC (c : Char) : List Char :=
  if c = '"' || c = '\\' then ['\\', c] else [c]

/-- Escape a string body. -/
def escL : List Char → List Char
  | [] => []
  | c :: cs => escC c ++ escL cs

/-- A serialized JSON string: quote, escaped body, quote. -/
def jstrL (s : List Char) : List Char := '"' :: (escL s ++ ['"'])

/-- Join serialized items with the `","` item separator. -/
def sepByComma : List (List Char) → List Char
  | [] => []
  | [x] => x
  | x :: xs => x ++ ',' :: sepByComma xs

/-- One `"name":value` member of the `measures` object (the value is a bare
numeral token, as `json.dumps` emits for a float). -/
def measItemL (p : List Char × List Char) : List Char := jstrL p.1 ++ ':' :: p.2

/-- The serialized `measures` object, members in insertion order. -/
def measuresObjL (ms : List (List Char × List Char)) : List Char :=
  '{' :: (sepByComma (ms.map measItemL) ++ ['}'])

/-- Decimal digits of `n`, most significant first (fuel-indexed so that it
reduces in the kernel; `fuel > n` suffices). -/
def natChars : Nat → Nat → List Char
  | 0, _ => []
  | fuel + 1, n =>
    if n < 10 then [Nat.digitChar n]
    else natChars fuel (n / 10) ++ [Nat.digitChar (n % 10)]

/-- `str(device_id)`: the decimal representation of the id. -/
def str_of_int (n : Nat) : String := ⟨natChars (n + 1) n⟩

def kTimestamp : List Char := "timestamp".data

def kPlace : List Char := "place".data

def kDeviceId : List Char := "device_id".data

def kMeasures : List Char := "measures".data

/-- The serialized body, fields in the fixed insertion order of the
`OrderedDict`: `timestamp`, `place`, `device_id`, `measures`. -/
def payloadL (ms : List (List Char × List Char)) (place did ts : List Char) :
    List Char :=
  '{' :: (jstrL kTimestamp ++ ':' :: jstrL ts ++
    ',' :: jstrL kPlace ++ ':' :: jstrL place ++
    ',' :: jstrL kDeviceId ++ ':' :: jstrL did ++
    ',' :: jstrL kMeasures ++ ':' :: measuresObjL ms ++ ['}'])

/-- `make_payload(measures, place, device_id)` with the clock read passed in
as `ts`. -/
def make_payload (measures : List (String × String)) (place : String)
    (device_id : Nat) (ts : String) : String :=
  ⟨payloadL (measures.map fun p => (p.1.data, p.2.data)) place.data
    (str_of_int device_id).data ts.data⟩

/-! ## Decoder (no decoder exists in the source; §4.3 of the spec specifies
the wire format and §8 the round-trip property). -/

/-- Body of a JSON string after the opening quote: read characters up to the
closing quote, undoing the escapes. -/
def pStrAux : List Char → Option (List Char × List Char)
  | [] => none
  | c :: rest =>
    if c = '"' then some ([], rest)
    else if c = '\\' then
      match rest with
      | [] => none
      | c2 :: rest2 => (pStrAux rest2).map fun pr => (c2 :: pr.1, pr.2)
    else (pStrAux rest).map fun pr => (c :: pr.1, pr.2)

/-- Parse a JSON string literal. -/
def pStr : List Char → Option (List Char × List Char)
  | [] => none
  | c :: rest => if c = '"' then pStrAux rest else none

/-- Expect an exact literal prefix. -/
def pLit : List Char → List Char → Option (List Char)
  | [], s => some s
  | _ :: _, [] => none
  | c :: cs, x :: xs => if x = c then pLit cs xs else none

/-- Expect one exact character. -/
def expectChar (c : Char) : List Char → Option (List Char)
  | [] => none
  | x :: xs => if x = c then some xs else none

/-- Read a bare token (a serialized number) up to the next `,` or `}`. -/
def pTok : List Char → Option (List Char × List Char)
  | [] => none
  | c :: rest =>
    if c = ',' || c = '}' then some ([], c :: rest)
    else (pTok rest).map fun pr => (c :: pr.1, pr.2)

/-- Members of a non-empty `measures` object, after its opening brace.  The
fuel only bounds the number of members (any fuel at least the member count
gives the same result). -/
def pMeasItems : Nat → List Char → Option (List (List Char × List Char) × List Char)
  | 0, _ => none
  | fuel + 1, s =>
    (pStr s).bind fun ks =>
    (expectChar ':' ks.2).bind fun s2 =>
    (pTok s2).bind fun vs =>
    match vs.2 with
    | [] => none
    | d :: s4 =>
      if d = ',' then (pMeasItems fuel s4).map fun pr => ((ks.1, vs.1) :: pr.1, pr.2)
      else if d = '}' then some ([(ks.1, vs.1)], s4)
      else none

/-- Parse a `measures` object. -/
def pMeasObj : List Char → Option (List (List Char × List Char) × List Char)
  | [] => none
  | [_] => none
  | c :: c2 :: r =>
    if c = '{' then
      if c2 = '}' then some ([], r)
      else pMeasItems (c2 :: r).length (c2 :: r)
    else none

/-- Skip one value: a string, an object of numeral members, or a bare token. -/
def pVal (s : List Char) : Option (List Char) :=
  match s with
  | [] => none
  | c :: _ =>
    if c = '"' then (pStr s).map (·.2)
    else if c = '{' then (pMeasObj s).map (·.2)
    else (pTok s).map (·.2)

/-- A serialized key followed by the `":"` key separator. -/
def keyColon (k : List Char) : List Char := jstrL k ++ [':']

/-- A named string field: the exact serialized key with its separator, then a
string value. -/
def pField (key : List Char) (s : List Char) : Option (List Char × List Char) :=
  (pLit (keyColon key) s).bind pStr

/-- The decoded form of a queue payload (§3 of the spec). -/
structure MessageBody where
  timestamp : String
  place : String
  device_id : String
  measures : List (String × String)
deriving DecidableEq, Repr

/-- Modelled from the spec: the source ships no decoder, but §4.3 fixes the
wire format (four fields in fixed order, compact separators) and §8 demands
`decode(encode(reading, place, id)) == (reading, place, id)`.  This decoder
parses exactly that format back into a `MessageBody`. -/
def decode (payload : String) : Option MessageBody :=
  (expectChar '{' payload.data).bind fun s0 =>
  (pField kTimestamp s0).bind fun tss =>
  (expectChar ',' tss.2).bind fun s3 =>
  (pField kPlace s3).bind fun pls =>
  (expectChar ',' pls.2).bind fun s6 =>
  (pField kDeviceId s6).bind fun dids =>
  (expectChar ',' dids.2).bind fun s9 =>
  (pLit (keyColon kMeasures) s9).bind fun s10 =>
  (pMeasObj s10).bind fun mss =>
  (expectChar '}' mss.2).bind fun s12 =>
  if s12.isEmpty then
    some ⟨⟨tss.1⟩, ⟨pls.1⟩, ⟨dids.1⟩, mss.1.map fun p => (⟨p.1⟩, ⟨p.2⟩)⟩
  else none

/-- Read a decimal digit string back into the integer it denotes. -/
def chars2nat (l : List Char) : Nat :=
  l.foldl (fun a c => a * 10 + (c.toNat - 48)) 0

/-- The top-level keys of a serialized object, in serialization order. -/
def topKeysAux : Nat → List Char → Option (List String)
  | 0, _ => none
  | fuel + 1, s =>
    (pStr s).bind fun ks =>
    (expectChar ':' ks.2).bind fun s2 =>
    (pVal s2).bind fun s3 =>
    match s3 with
    | [] => none
    | d :: s4 =>
      if d = ',' then (topKeysAux fuel s4).map fun l => String.mk ks.1 :: l
      else if d = '}' then some [String.mk ks.1]
      else none

/-- Top-level keys of a payload, in order. -/
def topKeys (payload : String) : Option (List String) :=
  match payload.data with
  | [] => none
  | c :: s0 => if c = '{' then topKeysAux s0.length s0 else none

/-- Whitespace characters outside string literals (the scanner tracks whether
it is inside a string, honouring escapes). -/
def wsOut : List Char → Bool → Nat
  | [], _ => 0
  | c :: rest, true =>
    if c = '\\' then
      match rest with
      | [] => 0
      | _ :: r2 => wsOut r2 true
    else if c = '"' then wsOut rest false
    else wsOut rest true
  | c :: rest, false =>
    if c = '"' then wsOut rest true
    else (if c.isWhitespace then 1 else 0) + wsOut rest false

/-- Characters that may occur in the numeral token `repr` of a Python float
emits (digits, sign, point, exponent). -/
def isNumTokC (c : Char) : Bool :=
  c ∈ ['0', '1', '2', '3', '4', '5', '6', '7', '8', '9', '-', '+', '.', 'e', 'E']

/-- A well-formed numeral token: non-empty and made of numeral characters. -/
def isNumTok (s : String) : Bool := !s.isEmpty && s.data.all isNumTokC

/-! ## Device reader and poll cycle

The Modbus transport is external: a bus is an oracle mapping
`(device id, register address, function code)` to the value `read_float`
returns, or to a failure.  As in the codec, a float value is carried as an
opaque token and Python `round(value, ndigits)` as an arbitrary transformer
applied to it. -/

/-- Register metadata: `{"addr": ..., "functioncode": ..., "round": ...}`. -/
structure RegMeta where
  addr : Nat
  functioncode : Nat
  round : Nat
deriving DecidableEq, Repr

/-- `DEVICE_META`: ordered modules, each an ordered table of named registers. -/
abbrev Catalogue := List (String × List (String × RegMeta))

/-- The field bus: the outcome of `instrument.read_float` per device id,
register address, and function code. -/
abbrev Bus := Nat → Nat → Nat → Option String

/-- Model of `round(value, ndigits)` on the opaque float tokens. -/
abbrev Rounder := Nat → String → String

def MODULE9 : List (String × RegMeta) :=
  [("ac_v_a", ⟨0x1000, 4, 1⟩), ("ac_v_b", ⟨0x1002, 4, 1⟩),
   ("ac_v_c", ⟨0x1004, 4, 1⟩)]

def MODULE10 : List (String × RegMeta) :=
  [("ac_i_a", ⟨0x1010, 4, 3⟩), ("ac_i_b", ⟨0x1012, 4, 3⟩),
   ("ac_i_c", ⟨0x1014, 4, 3⟩), ("ac_freq", ⟨0x1018, 4, 2⟩)]

def MODULE11 : List (String × RegMeta) :=
  [("ac_kw_p_total", ⟨0x1020, 4, 3⟩), ("ac_pf", ⟨0x1038, 4, 3⟩),
   ("ac_kwh", ⟨0x103A, 4, 3⟩)]

def DEVICE_META : Catalogue := [("M9", MODULE9), ("M10", MODULE10), ("M11", MODULE11)]

/-- The catalogue's registers in module-then-declaration order, as the nested
`for` loops of `read_all_data` visit them. -/
def flatCat (meta : Catalogue) : List (String × RegMeta) :=
  meta.foldr (fun m acc => m.2 ++ acc) []

/-- Python `dict` assignment `data[name] = value`: replace in place when the
key exists, else append. -/
def dictInsert (l : List (String × String)) (k : String) (v : String) :
    List (String × String) :=
  if l.any fun p => p.1 = k then l.map fun p => if p.1 = k then (k, v) else p
  else l ++ [(k, v)]

/-- The body of the register loop of `read_all_data`: a successful
`read_float` stores the rounded value and records a valid flag, a failed read
only records an invalid flag. -/
def readStep (pyround : Rounder) (bus : Bus) (dev_id : Nat)
    (acc : List (String × String) × List Bool) (e : String × RegMeta) :
    List (String × String) × List Bool :=
  match bus dev_id e.2.addr e.2.functioncode with
  | some value => (dictInsert acc.1 e.1 (pyround e.2.round value), acc.2 ++ [true])
  | none => (acc.1, acc.2 ++ [false])

/-- `read_all_data`: try every register of every module, then return
`(data, True)` if any flag is valid, else `({}, False)`. -/
def read_all_data (pyround : Rounder) (bus : Bus) (dev_id : Nat)
    (device_meta : Catalogue) : List (String × String) × Bool :=
  let res := (flatCat device_meta).foldl (readStep pyround bus dev_id) ([], [])
  if res.2.any (fun b => b) then (res.1, true) else ([], false)

/-- The per-device body of the poll loop (`main`, lines 361-393): read the
registers, build the payload, enqueue unconditionally, reconnect when the
client is absent (`reconnect` is the outcome of that `connect_mqtt()` call),
then attempt the opportunistic publish whose outcome `oppOut` is only logged —
no queue operation accompanies it. -/
def poll_device (pyround : Rounder) (bus : Bus) (place topic : String)
    (q : Queue) (dev_id : Nat) (tsPayload tsQueue : String)
    (client reconnect : Option Channel) (oppOut : PubOutcome) :
    Queue × Option Channel :=
  let md := read_all_data pyround bus dev_id DEVICE_META
  let payload := make_payload md.1 place dev_id tsPayload
  let q1 := enqueue_to_db q topic payload tsQueue
  let client1 := match client with
    | none => reconnect
    | some c => some c
  (q1, client1)

/-! ## Concrete scenario states -/

/-- A channel acknowledging the first three publishes and raising on the
fourth. -/
def outFirst3 : Channel := fun k => if k < 3 then .acked else .err

/-- Ten pending records with ids 1 through 10. -/
def q10 : Queue := (List.range 10).map fun k => ⟨k + 1, "spm1", "p", "t0", false⟩

/-- The ten records after records 1-3 were delivered. -/
def q10after : Queue :=
  (List.range 10).map fun k => ⟨k + 1, "spm1", "p", "t0", decide (k < 3)⟩

/-- Two sent records far apart in id, so that the stale one is below the
retention threshold; nothing is pending. -/
def qStale : Queue :=
  [⟨1, "spm1", "p", "t0", true⟩, ⟨6000, "spm1", "p", "t0", true⟩]

/-- A queue row with the given id and sent flag. -/
def mkRec (i : Nat) (s : Bool) : QueueRecord := ⟨i, "spm1", "p", "t0", s⟩

/-- `n` consecutive sent records with ids `lo, lo+1, …, lo+n-1`. -/
def sentBlock (lo n : Nat) : Queue := (List.range n).map fun k => mkRec (lo + k) true

/-- 6000 sent records among ids 1 through 6002, the records with ids 5 and
500 being old unsent stragglers. -/
def qC5mix : Queue :=
  sentBlock 1 4 ++ [mkRec 5 false] ++ sentBlock 6 494 ++
    [mkRec 500 false] ++ sentBlock 501 5502

/-- A channel whose first publish attempt is unacknowledged (without raising)
and whose later attempts are acknowledged. -/
def outUnackedFirst : Channel := fun k => if k = 0 then .unacked else .acked

/-- Two pending records with ids 1 and 2. -/
def qPair : Queue :=
  [⟨1, "spm1", "pa", "t0", false⟩, ⟨2, "spm1", "pb", "t0", false⟩]

/-- A channel acknowledging every publish. -/
def outAllAcked : Channel := fun _ => .acked

/-- A field bus on which every register read fails. -/
def busNone : Bus := fun _ _ _ => none

/-- A field bus on which every register read succeeds with a fixed token. -/
def busConst : Bus := fun _ _ _ => some "1.5"

/-- The identity rounder (rounding left unmodelled). -/
def roundId : Rounder := fun _ v => v

theorem flushLoop_eq (rows : List QueueRecord) (q : Queue) (out : Channel)
    (k cnt : Nat) :
    flushLoop q rows out k cnt =
      (applyMarks q (markedIds rows out k), cnt + (markedIds rows out k).length) := by
  induction rows generalizing q k cnt with
  | nil => simp [flushLoop, markedIds, applyMarks]
  | cons r rest ih =>
    simp only [flushLoop, markedIds]
    cases out k with
    | acked =>
      simp only [ih, applyMarks, List.foldl_cons, List.length_cons]
      rw [Prod.mk.injEq]
      exact ⟨rfl, by omega⟩
    | unacked => simp [ih]
    | err => simp [applyMarks]

theorem foldr_max_init (q : Queue) (m : Nat) :
    q.foldr (fun r acc => max r.id acc) m = max (maxId q) m := by
  induction q generalizing m with
  | nil => simp [maxId]
  | cons r rest ih =>
    rw [List.foldr_cons, ih]
    have h1 : maxId (r :: rest) = max r.id (maxId rest) := rfl
    rw [h1]
    omega

theorem maxId_append (q1 q2 : Queue) :
    maxId (q1 ++ q2) = max (maxId q1) (maxId q2) := by
  rw [maxId, List.foldr_append, ← maxId, foldr_max_init]

theorem sentBlock_append (lo a b : Nat) :
    sentBlock lo (a + b) = sentBlock lo a ++ sentBlock (lo + a) b := by
  unfold sentBlock
  rw [List.range_add, List.map_append, List.map_map]
  have hfun : ((fun k => mkRec (lo + k) true) ∘ fun x => a + x) =
      fun k => mkRec (lo + a + k) true := by
    funext k
    simp [Function.comp, Nat.add_assoc]
  rw [hfun]

theorem length_sentBlock (lo n : Nat) : (sentBlock lo n).length = n := by
  simp [sentBlock]

theorem mem_sentBlock {r : QueueRecord} {lo n : Nat} (h : r ∈ sentBlock lo n) :
    r.sent = true ∧ lo ≤ r.id ∧ r.id < lo + n := by
  unfold sentBlock at h
  obtain ⟨k, hk, rfl⟩ := List.mem_map.mp h
  have hk2 := List.mem_range.mp hk
  refine ⟨rfl, ?_, ?_⟩
  · show lo ≤ lo + k
    omega
  · show lo + k < lo + n
    omega

theorem maxId_sentBlock (lo n : Nat) : maxId (sentBlock lo (n + 1)) = lo + n := by
  induction n with
  | zero => simp [sentBlock, List.range_succ, maxId, mkRec]
  | succ n ih =>
    rw [show n + 1 + 1 = (n + 1) + 1 from rfl, sentBlock_append lo (n + 1) 1,
      maxId_append, ih]
    simp [sentBlock, List.range_succ, maxId, mkRec]

theorem filter_sentBlock_below {lo n : Nat} (thr : Int) (h : (lo : Int) + n ≤ thr) :
    (sentBlock lo n).filter
      (fun r => !(r.sent && decide ((r.id : Int) < thr))) = [] := by
  refine List.filter_eq_nil_iff.mpr fun r hr => ?_
  obtain ⟨hs, hlo, hhi⟩ := mem_sentBlock hr
  simp only [hs, Bool.true_and, Bool.not_eq_true', Bool.not_eq_false,
    decide_eq_true_eq]
  omega

theorem filter_sentBlock_above {lo n : Nat} (thr : Int) (h : thr ≤ (lo : Int)) :
    (sentBlock lo n).filter
      (fun r => !(r.sent && decide ((r.id : Int) < thr))) = sentBlock lo n := by
  refine List.filter_eq_self.mpr fun r hr => ?_
  obtain ⟨hs, hlo, hhi⟩ := mem_sentBlock hr
  simp only [hs, Bool.true_and, Bool.not_eq_true', decide_eq_false_iff_not]
  omega

/-- C4.  For every queue state, pruning deletes only records whose sent flag
is true: an unsent record is never deleted by the cleanup statement,
regardless of its age, its id, or the retention parameter. -/
theorem prune_never_deletes_unsent (q : Queue) (retain : Nat)
    (r : QueueRecord) (hr : r ∈ q) (hs : r.sent = false) :
    r ∈ prune q retain := by
  unfold prune
  exact List.mem_filter.mpr ⟨hr, by simp [hs]⟩

theorem prune_never_deletes_unsent_witness :
    mkRec 1 false ∈ ([mkRec 1 false, mkRec 9000 true] : Queue) ∧
    mkRec 1 false ∈ prune [mkRec 1 false, mkRec 9000 true] 5000 :=
  ⟨by decide,
   prune_never_deletes_unsent [mkRec 1 false, mkRec 9000 true] 5000
     (mkRec 1 false) (by decide) rfl⟩

/-- C5 counterexample.  With 6000 accumulated sent records (ids 1 … 6000),
the cleanup keeps the 5001 records with id ≥ 1000 — it deletes the oldest
999 sent records, not 1000 as claimed (`id < MAX(id) - 5000` is strict). -/
theorem prune_6000_deletes_999_not_1000 :
    prune (sentBlock 1 6000) 5000 = sentBlock 1000 5001 ∧
    (sentBlock 1 6000).length = 6000 ∧ (sentBlock 1000 5001).length = 5001 := by
  refine ⟨?_, length_sentBlock 1 6000, length_sentBlock 1000 5001⟩
  have hmax : maxId (sentBlock 1 6000) = 6000 := by
    have := maxId_sentBlock 1 5999
    norm_num at this ⊢
    exact this
  have hne : (sentBlock 1 6000).isEmpty = false := by
    have := length_sentBlock 1 6000
    cases hq : sentBlock 1 6000 with
    | nil => rw [hq] at this; simp at this
    | cons a l => simp
  have hthr : pruneThr (sentBlock 1 6000) 5000 = 1000 := by
    rw [pruneThr, hne, hmax]
    norm_num
  rw [prune, hthr, show (6000 : Nat) = 999 + 5001 from rfl,
    sentBlock_append 1 999 5001, List.filter_append]
  rw [filter_sentBlock_below 1000 (by norm_num), filter_sentBlock_above 1000 (by norm_num)]
  simp

/-- C5 as amended.  With 6000 accumulated sent records among ids 1 … 6002 and
two old unsent stragglers (ids 5 and 500), the cleanup deletes exactly the 999
oldest sent records (the sent records with `id < MAX(id) - 5000 = 1002`) and
keeps every unsent record regardless of its position. -/
theorem prune_6000_mixed_exact :
    prune qC5mix 5000 = mkRec 5 false :: mkRec 500 false :: sentBlock 1002 5001 ∧
    qC5mix.length = 6002 ∧ (prune qC5mix 5000).length = 5003 := by
  have hmax : maxId qC5mix = 6002 := by
    rw [qC5mix]
    rw [maxId_append, maxId_append, maxId_append, maxId_append]
    rw [maxId_sentBlock 1 3, maxId_sentBlock 6 493, maxId_sentBlock 501 5501]
    simp [maxId, mkRec]
  have hne : qC5mix.isEmpty = false := by
    rw [qC5mix]
    cases hq : sentBlock 1 4 ++ [mkRec 5 false] ++ sentBlock 6 494 ++
        [mkRec 500 false] ++ sentBlock 501 5502 with
    | nil =>
      have : (sentBlock 1 4 ++ [mkRec 5 false] ++ sentBlock 6 494 ++
          [mkRec 500 false] ++ sentBlock 501 5502).length = 0 := by rw [hq]; rfl
      simp [length_sentBlock] at this
    | cons a l => simp
  have hthr : pruneThr qC5mix 5000 = 1002 := by
    rw [pruneThr, hne, hmax]
    norm_num
  have hmain : prune qC5mix 5000 =
      mkRec 5 false :: mkRec 500 false :: sentBlock 1002 5001 := by
    rw [prune, hthr, qC5mix, show (5502 : Nat) = 501 + 5001 from rfl,
      sentBlock_append 501 501 5001]
    rw [List.filter_append, List.filter_append, List.filter_append,
      List.filter_append, List.filter_append]
    rw [filter_sentBlock_below 1002 (by norm_num),
      filter_sentBlock_below 1002 (by norm_num),
      filter_sentBlock_below 1002 (by norm_num),
      filter_sentBlock_above 1002 (by norm_num)]
    simp [mkRec]
  refine ⟨hmain, ?_, ?_⟩
  · rw [qC5mix]
    simp [length_sentBlock]
  · rw [hmain]
    simp [length_sentBlock]

/-- C6.  `UPDATE queue SET sent=1 WHERE id=?` is idempotent: marking the same
id twice leaves the table identical to marking it once, and marking an id all
of whose rows are already sent is a no-op (never an error). -/
theorem markSent_idempotent (q : Queue) (i : Nat) :
    markSent (markSent q i) i = markSent q i ∧
    ((∀ r ∈ q, r.id = i → r.sent = true) → markSent q i = q) := by
  constructor
  · unfold markSent
    rw [List.map_map]
    congr 1
    funext r
    by_cases h : r.id = i <;> simp [Function.comp, h]
  · intro hall
    unfold markSent
    induction q with
    | nil => rfl
    | cons r rest ih =>
      simp only [List.map_cons]
      have hrest : rest.map
          (fun r => if r.id = i then { r with sent := true } else r) = rest :=
        ih fun s hs => hall s (List.mem_cons_of_mem r hs)
      rw [hrest]
      by_cases h : r.id = i
      · have hsent := hall r (List.mem_cons_self r rest) h
        simp only [h, if_pos rfl]
        cases r
        simp_all
      · simp [h]

theorem markSent_idempotent_witness :
    markSent (markSent qPair 2) 2 = markSent qPair 2 ∧
    markSent [mkRec 3 true] 3 = [mkRec 3 true] :=
  ⟨(markSent_idempotent qPair 2).1,
   (markSent_idempotent [mkRec 3 true] 3).2 (by decide)⟩

/-- C2.  Flushing a 10-record pending batch (ids 1 … 10) over a channel that
acknowledges the first three publishes and raises on the fourth marks records
1-3 sent, leaves records 4-10 unsent, and returns 3. -/
theorem flush_ten_records_fail_at_fourth :
    flush_db_queue (some outFirst3) q10 100 = (q10after, 3) := by decide

/-- C3 counterexample.  With a live channel but no pending records, the flush
call returns before the cleanup statement: a stale sent record that the
cleanup would delete survives the call untouched (the same early return also
fires when the client is `None`). -/
theorem flush_empty_batch_skips_prune :
    flush_db_queue (some outFirst3) qStale 100 = (qStale, 0) ∧
    flush_db_queue none qStale 100 = (qStale, 0) ∧
    prune qStale 5000 ≠ qStale := by decide

theorem flush_eq_nonempty (q : Queue) (out : Channel)
    (maxBatch : Nat) (h : pending q maxBatch ≠ []) :
    flush_db_queue (some out) q maxBatch =
      (prune (flushLoop q (pending q maxBatch) out 0 0).1 5000,
       (flushLoop q (pending q maxBatch) out 0 0).2) := by
  unfold flush_db_queue
  have : (pending q maxBatch).isEmpty = false := by
    cases hq : pending q maxBatch with
    | nil => exact absurd hq h
    | cons a l => simp
  simp [this]

/-- C3 as amended.  Whenever the channel is present and the pending batch is
non-empty, the flush call applies the cleanup with retention 5000 after the
batch loop, regardless of the publish outcomes — in particular also when no
record succeeded. -/
theorem flush_prunes_after_nonempty_batch (q : Queue) (out : Channel)
    (maxBatch : Nat) (h : pending q maxBatch ≠ []) :
    flush_db_queue (some out) q maxBatch =
      (prune (flushLoop q (pending q maxBatch) out 0 0).1 5000,
       (flushLoop q (pending q maxBatch) out 0 0).2) :=
  flush_eq_nonempty q out maxBatch h

theorem flush_prunes_after_nonempty_batch_witness :
    pending qPair 100 ≠ [] ∧
    flush_db_queue (some outFirst3) qPair 100 =
      (prune (flushLoop qPair (pending qPair 100) outFirst3 0 0).1 5000,
       (flushLoop qPair (pending qPair 100) outFirst3 0 0).2) :=
  ⟨by decide, flush_prunes_after_nonempty_batch qPair outFirst3 100 (by decide)⟩

/-- C1 counterexample.  Records 1 and 2 are pending; the publish of record 1
returns unacknowledged without raising, the publish of record 2 is
acknowledged.  The loop does not stop at record 1: record 2 is marked sent
while record 1 remains unsent, violating the ascending-id order claim. -/
theorem flush_unacked_marks_later_record :
    sentFlag (flush_db_queue (some outUnackedFirst) qPair 100).1 2 = some true ∧
    sentFlag (flush_db_queue (some outUnackedFirst) qPair 100).1 1 = some false ∧
    (flush_db_queue (some outUnackedFirst) qPair 100).2 = 1 := by decide

theorem map_id_markSent (q : Queue) (i : Nat) :
    (markSent q i).map (·.id) = q.map (·.id) := by
  unfold markSent
  rw [List.map_map]
  have hfun : ((fun r : QueueRecord => r.id) ∘
      fun r => if r.id = i then { r with sent := true } else r) =
      fun r : QueueRecord => r.id := by
    funext r
    by_cases h : r.id = i <;> simp [Function.comp, h]
  rw [hfun]

theorem map_id_applyMarks (q : Queue) (ids : List Nat) :
    (applyMarks q ids).map (·.id) = q.map (·.id) := by
  induction ids generalizing q with
  | nil => rfl
  | cons i rest ih =>
    rw [applyMarks, List.foldl_cons, ← applyMarks, ih, map_id_markSent]

theorem sentFlag_markSent (q : Queue) (i x : Nat) :
    sentFlag (markSent q i) x =
      if x = i then (sentFlag q x).map (fun _ => true) else sentFlag q x := by
  unfold sentFlag markSent
  rw [List.find?_map]
  have hfun : ((fun r : QueueRecord => decide (r.id = x)) ∘
      fun r => if r.id = i then { r with sent := true } else r) =
      fun r : QueueRecord => decide (r.id = x) := by
    funext r
    by_cases h : r.id = i <;> simp [Function.comp, h]
  rw [hfun]
  cases hf : q.find? (fun r => decide (r.id = x)) with
  | none => simp
  | some a =>
    have ha : a.id = x := by simpa using List.find?_some hf
    by_cases hxi : x = i
    · subst hxi
      simp [Option.map_map, Function.comp, ha]
    · have hne : ¬ a.id = i := by rw [ha]; exact hxi
      simp [Option.map_map, Function.comp, hne, hxi]

theorem sentFlag_applyMarks (q : Queue) (ids : List Nat) (x : Nat) :
    sentFlag (applyMarks q ids) x =
      if x ∈ ids then (sentFlag q x).map (fun _ => true) else sentFlag q x := by
  induction ids generalizing q with
  | nil => simp [applyMarks]
  | cons i rest ih =>
    rw [applyMarks, List.foldl_cons, ← applyMarks, ih, sentFlag_markSent]
    by_cases h1 : x ∈ rest
    · rw [if_pos h1, if_pos (List.mem_cons_of_mem i h1)]
      by_cases h2 : x = i
      · rw [if_pos h2]
        cases sentFlag q x <;> simp
      · rw [if_neg h2]
    · by_cases h2 : x = i
      · rw [if_neg h1, if_pos h2, if_pos (by rw [h2]; exact List.mem_cons_self i rest)]
      · rw [if_neg h1, if_neg h2, if_neg (by simp [h1, h2])]

theorem sentFlag_eq_of_mem {q : Queue} (hq : (q.map (·.id)).Nodup)
    {r : QueueRecord} (hr : r ∈ q) : sentFlag q r.id = some r.sent := by
  unfold sentFlag
  cases hf : q.find? (fun s => decide (s.id = r.id)) with
  | none =>
    have := List.find?_eq_none.mp hf r hr
    simp at this
  | some a =>
    have hmem := List.mem_of_find?_eq_some hf
    have hid : a.id = r.id := by simpa using List.find?_some hf
    have hae : a = r := List.inj_on_of_nodup_map hq hmem hr hid
    rw [hae]
    rfl

theorem sentFlag_some {q : Queue} {x : Nat} {b : Bool}
    (h : sentFlag q x = some b) : ∃ a ∈ q, a.id = x ∧ a.sent = b := by
  unfold sentFlag at h
  cases hf : q.find? (fun s => decide (s.id = x)) with
  | none => rw [hf] at h; simp at h
  | some a =>
    rw [hf] at h
    refine ⟨a, List.mem_of_find?_eq_some hf, by simpa using List.find?_some hf, ?_⟩
    simpa using h

theorem mem_of_mem_prune {q : Queue} {retain : Nat} {r : QueueRecord}
    (h : r ∈ prune q retain) : r ∈ q := by
  unfold prune at h
  exact (List.mem_filter.mp h).1

theorem insertByID_perm (r : QueueRecord) (l : List QueueRecord) :
    List.Perm (insertByID r l) (r :: l) := by
  induction l with
  | nil => exact List.Perm.refl _
  | cons x xs ih =>
    unfold insertByID
    by_cases h : r.id ≤ x.id
    · rw [if_pos h]
    · rw [if_neg h]
      exact (ih.cons x).trans (List.Perm.swap r x xs)

theorem sortByID_perm (l : List QueueRecord) : List.Perm (sortByID l) l := by
  induction l with
  | nil => exact List.Perm.refl _
  | cons x xs ih => exact (insertByID_perm x (sortByID xs)).trans (ih.cons x)

theorem sorted_insertByID {r : QueueRecord} {l : List QueueRecord}
    (h : l.Sorted (fun a b => a.id ≤ b.id)) :
    (insertByID r l).Sorted (fun a b => a.id ≤ b.id) := by
  induction l with
  | nil => simp [insertByID]
  | cons x xs ih =>
    rw [List.sorted_cons] at h
    unfold insertByID
    by_cases hle : r.id ≤ x.id
    · rw [if_pos hle, List.sorted_cons]
      refine ⟨?_, List.sorted_cons.mpr h⟩
      intro b hb
      rcases List.mem_cons.mp hb with rfl | hb2
      · exact hle
      · exact le_trans hle (h.1 b hb2)
    · rw [if_neg hle, List.sorted_cons]
      refine ⟨?_, ih h.2⟩
      intro b hb
      rcases List.mem_cons.mp ((insertByID_perm r xs).mem_iff.mp hb) with rfl | hb2
      · omega
      · exact h.1 b hb2

theorem sorted_sortByID (l : List QueueRecord) :
    (sortByID l).Sorted (fun a b => a.id ≤ b.id) := by
  induction l with
  | nil => simp [sortByID]
  | cons x xs ih =>
    show (insertByID x (sortByID xs)).Sorted (fun a b => a.id ≤ b.id)
    exact sorted_insertByID ih

theorem mem_pending {q : Queue} {limit : Nat} {r : QueueRecord}
    (h : r ∈ pending q limit) : r ∈ q ∧ r.sent = false := by
  unfold pending at h
  have h1 : r ∈ sortByID (q.filter fun s => !s.sent) :=
    List.take_subset _ _ h
  have h2 := (sortByID_perm _).mem_iff.mp h1
  have h3 := List.mem_filter.mp h2
  exact ⟨h3.1, by simpa using h3.2⟩

theorem pending_sorted (q : Queue) (limit : Nat) :
    (pending q limit).Sorted (fun a b => a.id ≤ b.id) :=
  (sorted_sortByID _).sublist (List.take_sublist _ _)

theorem pending_nodup {q : Queue} (hwf : (q.map (·.id)).Nodup) (limit : Nat) :
    ((pending q limit).map (·.id)).Nodup := by
  have h1 : ((q.filter fun s => !s.sent).map (·.id)).Nodup :=
    hwf.sublist ((List.filter_sublist _).map _)
  have h2 : ((sortByID (q.filter fun s => !s.sent)).map (·.id)).Nodup :=
    (((sortByID_perm _).map _).nodup_iff).mpr h1
  unfold pending
  rw [List.map_take]
  exact h2.sublist (List.take_sublist _ _)

theorem markedIds_no_unacked (rows : List QueueRecord) (out : Channel) (k : Nat)
    (h : ∀ j, out j ≠ PubOutcome.unacked) :
    ∃ n, markedIds rows out k = (rows.take n).map (·.id) := by
  induction rows generalizing k with
  | nil => exact ⟨0, by simp [markedIds]⟩
  | cons r rest ih =>
    cases ho : out k with
    | acked =>
      obtain ⟨n, hn⟩ := ih (k + 1)
      exact ⟨n + 1, by simp [markedIds, ho, hn]⟩
    | unacked => exact absurd ho (h k)
    | err => exact ⟨0, by simp [markedIds, ho]⟩

/-- C1 as amended.  The batch is selected in ascending id order; on a publish
exception the loop stops immediately, while an unacknowledged (not-published)
result is logged and the loop continues with the next record.  Hence for every
outcome sequence containing no unacknowledged results, a record later in the
batch is never marked sent while an earlier one remains unsent. -/
theorem flush_ascending_order_no_unacked (q : Queue) (out : Channel)
    (maxBatch : Nat) (hwf : (q.map (·.id)).Nodup)
    (hout : ∀ j, out j ≠ PubOutcome.unacked) (i j : Nat) (hij : i < j)
    (hj : j < (pending q maxBatch).length)
    (hsent : sentFlag (flush_db_queue (some out) q maxBatch).1
      ((pending q maxBatch).get ⟨j, hj⟩).id = some true) :
    sentFlag (flush_db_queue (some out) q maxBatch).1
      ((pending q maxBatch).get ⟨i, lt_trans hij hj⟩).id ≠ some false ∧
    (pending q maxBatch).Sorted (fun a b => a.id ≤ b.id) := by
  refine ⟨?_, pending_sorted q maxBatch⟩
  set rows := pending q maxBatch with hrows
  have hne : rows ≠ [] := by
    intro h0
    rw [h0] at hj
    simp at hj
  have hflush := flush_eq_nonempty q out maxBatch hne
  have hloop := flushLoop_eq rows q out 0 0
  obtain ⟨n, hn⟩ := markedIds_no_unacked rows out 0 hout
  set z := (flushLoop q rows out 0 0).1 with hz
  have hzdef : z = applyMarks q (markedIds rows out 0) := by
    rw [hz, hloop]
  have hznd : (z.map (·.id)).Nodup := by
    rw [hzdef, map_id_applyMarks]
    exact hwf
  have hrownd : (rows.map (·.id)).Nodup := pending_nodup hwf maxBatch
  have hrnd : rows.Nodup := List.Nodup.of_map _ hrownd
  -- the j-th batch record is pending hence unsent in q
  have hjq := mem_pending (rows.get_mem j hj)
  -- the id is in the marked set
  rw [hflush] at hsent
  obtain ⟨a, haP, haid, hasent⟩ := sentFlag_some hsent
  have haz : a ∈ z := mem_of_mem_prune haP
  have hsz : sentFlag z ((rows.get ⟨j, hj⟩).id) = some true := by
    have h5 := sentFlag_eq_of_mem hznd haz
    rw [haid] at h5
    rw [h5, hasent]
  have hqj : sentFlag q ((rows.get ⟨j, hj⟩).id) = some false := by
    have h5 := sentFlag_eq_of_mem hwf hjq.1
    rw [hjq.2] at h5
    exact h5
  have hmarksj := sentFlag_applyMarks q (markedIds rows out 0)
    ((rows.get ⟨j, hj⟩).id)
  rw [← hzdef] at hmarksj
  have hjm : (rows.get ⟨j, hj⟩).id ∈ markedIds rows out 0 := by
    by_contra hc
    rw [if_neg hc, hqj] at hmarksj
    rw [hmarksj] at hsz
    simp at hsz
  -- deduce j < n from nodup
  rw [hn] at hjm
  obtain ⟨rm, hrm_mem, hrm_id⟩ := List.mem_map.mp hjm
  obtain ⟨idx, hidx⟩ := List.mem_iff_get.mp hrm_mem
  have hidxn : (idx : Nat) < n ∧ (idx : Nat) < rows.length := by
    have := idx.2
    simp at this
    omega
  have hgt : (rows.take n).get idx = rows.get ⟨idx, hidxn.2⟩ := List.get_take' rows
  have heq : rows.get ⟨(idx : Nat), hidxn.2⟩ = rows.get ⟨j, hj⟩ := by
    apply List.inj_on_of_nodup_map hrownd (rows.get_mem _ _) (rows.get_mem _ _)
    rw [← hgt, hidx, hrm_id]
  have hjn : j < n := by
    have := (List.Nodup.get_inj_iff hrnd).mp heq
    have hv : (idx : Nat) = j := congrArg Fin.val this
    omega
  -- the i-th id is marked as well
  have hilen : i < rows.length := lt_trans hij hj
  have hitake : i < (rows.take n).length := by
    simp
    omega
  have hgti : (rows.take n).get ⟨i, hitake⟩ = rows.get ⟨i, hilen⟩ := List.get_take' rows
  have hin : (rows.get ⟨i, hilen⟩).id ∈ markedIds rows out 0 := by
    rw [hn]
    exact List.mem_map.mpr ⟨rows.get ⟨i, hilen⟩,
      hgti ▸ (rows.take n).get_mem i hitake, rfl⟩
  have hiq := mem_pending (rows.get_mem i hilen)
  have hqi : sentFlag q ((rows.get ⟨i, hilen⟩).id) = some false := by
    have h5 := sentFlag_eq_of_mem hwf hiq.1
    rw [hiq.2] at h5
    exact h5
  have hszi : sentFlag z ((rows.get ⟨i, hilen⟩).id) = some true := by
    have hm2 := sentFlag_applyMarks q (markedIds rows out 0)
      ((rows.get ⟨i, hilen⟩).id)
    rw [← hzdef, if_pos hin, hqi] at hm2
    simpa using hm2
  -- conclude: the i-th record cannot read unsent after the flush
  rw [hflush]
  intro hcon
  obtain ⟨b, hbP, hbid, hbsent⟩ := sentFlag_some hcon
  have hbz : b ∈ z := mem_of_mem_prune hbP
  have h6 := sentFlag_eq_of_mem hznd hbz
  rw [hbid] at h6
  rw [h6, hbsent] at hszi
  simp at hszi

theorem any_map_id {α : Type} (l : List α) (f : α → Bool) :
    (l.map f).any (fun b => b) = l.any f := by
  induction l with
  | nil => rfl
  | cons x xs ih => simp [ih]

theorem readStep_flags (pyround : Rounder) (bus : Bus) (dev_id : Nat)
    (entries : List (String × RegMeta)) (acc : List (String × String) × List Bool) :
    (entries.foldl (readStep pyround bus dev_id) acc).2 =
      acc.2 ++ entries.map (fun e => (bus dev_id e.2.addr e.2.functioncode).isSome) := by
  induction entries generalizing acc with
  | nil => simp
  | cons e rest ih =>
    rw [List.foldl_cons, ih]
    cases hb : bus dev_id e.2.addr e.2.functioncode <;> simp [readStep, hb]

/-- C7.  `anyValid` is true exactly when at least one register read of the
catalogue succeeded; an all-failed device yields the empty reading with
`anyValid = false`; and the poll loop enqueues exactly one record for the
device in every case, its payload built from whatever reading resulted (empty
measures included). -/
theorem read_all_data_partial_failure (pyround : Rounder) (bus : Bus)
    (dev_id : Nat) :
    ((read_all_data pyround bus dev_id DEVICE_META).2 =
      (flatCat DEVICE_META).any fun e =>
        (bus dev_id e.2.addr e.2.functioncode).isSome) ∧
    ((read_all_data pyround bus dev_id DEVICE_META).2 = false →
      read_all_data pyround bus dev_id DEVICE_META = ([], false)) ∧
    (∀ (place topic : String) (q : Queue) (tsP tsQ : String)
      (client reconnect : Option Channel) (oppOut : PubOutcome),
      (poll_device pyround bus place topic q dev_id tsP tsQ client reconnect
        oppOut).1 =
        q ++ [⟨nextId q, topic,
          make_payload (read_all_data pyround bus dev_id DEVICE_META).1 place
            dev_id tsP, tsQ, false⟩]) := by
  have hunfold : read_all_data pyround bus dev_id DEVICE_META =
      if ((flatCat DEVICE_META).foldl (readStep pyround bus dev_id)
            ([], [])).2.any (fun b => b)
      then (((flatCat DEVICE_META).foldl (readStep pyround bus dev_id)
            ([], [])).1, true)
      else ([], false) := rfl
  have hkey : ((flatCat DEVICE_META).foldl (readStep pyround bus dev_id)
        ([], [])).2.any (fun b => b) =
      (flatCat DEVICE_META).any
        (fun e => (bus dev_id e.2.addr e.2.functioncode).isSome) := by
    rw [readStep_flags]
    rw [List.nil_append, any_map_id]
  refine ⟨?_, ?_, ?_⟩
  · rw [hunfold]
    by_cases hc : ((flatCat DEVICE_META).foldl (readStep pyround bus dev_id)
        ([], [])).2.any (fun b => b) = true
    · rw [if_pos hc, ← hkey, hc]
    · rw [if_neg hc, ← hkey]
      cases h2 : ((flatCat DEVICE_META).foldl (readStep pyround bus dev_id)
          ([], [])).2.any (fun b => b)
      · rfl
      · exact absurd h2 hc
  · intro h
    rw [hunfold] at h ⊢
    by_cases hc : ((flatCat DEVICE_META).foldl (readStep pyround bus dev_id)
        ([], [])).2.any (fun b => b) = true
    · rw [if_pos hc] at h
      simp at h
    · rw [if_neg hc]
  · intro place topic q tsP tsQ client reconnect oppOut
    rfl

theorem read_all_data_partial_failure_witness :
    read_all_data roundId busNone 1 DEVICE_META = ([], false) ∧
    (poll_device roundId busNone "PL" "spm1" [] 1 "t1" "t2" none none
        PubOutcome.acked).1 =
      [] ++ [⟨nextId [], "spm1",
        make_payload (read_all_data roundId busNone 1 DEVICE_META).1 "PL" 1 "t1",
        "t2", false⟩] :=
  ⟨(read_all_data_partial_failure roundId busNone 1).2.1 (by decide),
   (read_all_data_partial_failure roundId busNone 1).2.2 "PL" "spm1" [] "t1" "t2"
     none none PubOutcome.acked⟩

theorem le_maxId {q : Queue} {r : QueueRecord} : r ∈ q → r.id ≤ maxId q := by
  induction q with
  | nil => intro h; cases h
  | cons x xs ih =>
    intro h
    rcases List.mem_cons.mp h with rfl | h2
    · show r.id ≤ max r.id (maxId xs)
      omega
    · have := ih h2
      show r.id ≤ max x.id (maxId xs)
      omega

theorem maxId_enqueue (q : Queue) (topic payload ts : String) :
    maxId (enqueue_to_db q topic payload ts) = nextId q := by
  rw [enqueue_to_db, maxId_append]
  show max (maxId q) (max (maxId q + 1) 0) = maxId q + 1
  omega

theorem find?_fresh_none (q : Queue) :
    q.find? (fun r => decide (r.id = nextId q)) = none :=
  List.find?_eq_none.mpr fun r hr => by
    have := le_maxId hr
    simp only [decide_eq_true_eq]
    show ¬ r.id = maxId q + 1
    omega

theorem sentFlag_enqueue_fresh (q : Queue) (topic payload ts : String) :
    sentFlag (enqueue_to_db q topic payload ts) (nextId q) = some false := by
  unfold sentFlag enqueue_to_db
  rw [List.find?_append, find?_fresh_none]
  simp [List.find?]

theorem wf_enqueue {q : Queue} (topic payload ts : String)
    (hwf : (q.map (·.id)).Nodup) :
    ((enqueue_to_db q topic payload ts).map (·.id)).Nodup := by
  rw [enqueue_to_db, List.map_append]
  refine List.Nodup.append hwf (by simp) ?_
  intro a ha hb
  simp at hb
  obtain ⟨r, hr, hrid⟩ := List.mem_map.mp ha
  have hle := le_maxId hr
  have hb2 : a = maxId q + 1 := hb
  omega

theorem mem_pending_of_le {q : Queue} {r : QueueRecord} (limit : Nat)
    (hr : r ∈ q) (hs : r.sent = false)
    (hlen : (q.filter fun s => !s.sent).length ≤ limit) :
    r ∈ pending q limit := by
  unfold pending
  have hlen2 : (sortByID (q.filter fun s => !s.sent)).length =
      (q.filter fun s => !s.sent).length := (sortByID_perm _).length_eq
  rw [List.take_of_length_le (by omega)]
  exact (sortByID_perm _).mem_iff.mpr (List.mem_filter.mpr ⟨hr, by simp [hs]⟩)

theorem attempted_all_acked (rows : List QueueRecord) (out : Channel) (k : Nat)
    (h : ∀ j, out j = PubOutcome.acked) : attempted rows out k = rows := by
  induction rows generalizing k with
  | nil => rfl
  | cons r rest ih => simp [attempted, h k, ih (k + 1)]

theorem markedIds_all_acked (rows : List QueueRecord) (out : Channel) (k : Nat)
    (h : ∀ j, out j = PubOutcome.acked) :
    markedIds rows out k = rows.map (·.id) := by
  induction rows generalizing k with
  | nil => rfl
  | cons r rest ih => simp [markedIds, h k, ih (k + 1)]

theorem maxId_eq_of_map_id {q1 q2 : Queue}
    (h : q1.map (·.id) = q2.map (·.id)) : maxId q1 = maxId q2 := by
  have h1 : ∀ (q : Queue), maxId q = (q.map (·.id)).foldr max 0 := by
    intro q
    rw [List.foldr_map]
    rfl
  rw [h1, h1, h]

/-- C10.  The opportunistic publish of the poll loop performs no queue
operation: whatever its outcome (acknowledged included), the queue after the
device step is exactly the enqueue of the fresh record, which remains unsent.
Consequently, over a channel that stays up (every flush publish acknowledged),
the following flush attempts the very same payload a second time and only then
marks the record sent. -/
theorem opportunistic_publish_never_marks_sent (pyround : Rounder) (bus : Bus)
    (place topic : String) (q : Queue) (dev_id : Nat) (tsP tsQ : String)
    (client reconnect : Option Channel) (oppOut : PubOutcome) (out : Channel)
    (hwf : (q.map (·.id)).Nodup)
    (hcnt : (((poll_device pyround bus place topic q dev_id tsP tsQ client
        reconnect oppOut).1).filter (fun r => !r.sent)).length ≤ 100)
    (hout : ∀ k, out k = PubOutcome.acked) :
    (poll_device pyround bus place topic q dev_id tsP tsQ client reconnect
        oppOut).1 =
      enqueue_to_db q topic
        (make_payload (read_all_data pyround bus dev_id DEVICE_META).1 place
          dev_id tsP) tsQ ∧
    sentFlag (poll_device pyround bus place topic q dev_id tsP tsQ client
        reconnect oppOut).1 (nextId q) = some false ∧
    make_payload (read_all_data pyround bus dev_id DEVICE_META).1 place dev_id
        tsP ∈
      (attempted (pending (poll_device pyround bus place topic q dev_id tsP tsQ
        client reconnect oppOut).1 100) out 0).map (·.payload) ∧
    sentFlag (flush_db_queue (some out)
        (poll_device pyround bus place topic q dev_id tsP tsQ client reconnect
          oppOut).1 100).1 (nextId q) = some true := by
  set payload := make_payload (read_all_data pyround bus dev_id DEVICE_META).1
    place dev_id tsP with hpl
  have hq1 : (poll_device pyround bus place topic q dev_id tsP tsQ client
      reconnect oppOut).1 = enqueue_to_db q topic payload tsQ := rfl
  set rnew : QueueRecord := ⟨nextId q, topic, payload, tsQ, false⟩ with hrnew
  have hq2 : enqueue_to_db q topic payload tsQ = q ++ [rnew] := rfl
  refine ⟨hq1, ?_, ?_, ?_⟩
  · rw [hq1]
    exact sentFlag_enqueue_fresh q topic payload tsQ
  · rw [hq1]
    have hmem : rnew ∈ pending (enqueue_to_db q topic payload tsQ) 100 := by
      refine mem_pending_of_le 100 ?_ rfl ?_
      · exact List.mem_append_right q (List.mem_singleton.mpr rfl)
      · exact hcnt
    rw [attempted_all_acked _ out 0 hout]
    exact List.mem_map.mpr ⟨rnew, hmem, rfl⟩
  · rw [hq1]
    set q' := enqueue_to_db q topic payload tsQ with hq'
    have hwf' : (q'.map (·.id)).Nodup := wf_enqueue topic payload tsQ hwf
    have hmem : rnew ∈ pending q' 100 := by
      refine mem_pending_of_le 100 ?_ rfl ?_
      · exact List.mem_append_right q (List.mem_singleton.mpr rfl)
      · exact hcnt
    have hne : pending q' 100 ≠ [] := by
      intro h0
      rw [h0] at hmem
      cases hmem
    have hflush := flush_eq_nonempty q' out 100 hne
    rw [hflush]
    have hloop := flushLoop_eq (pending q' 100) q' out 0 0
    set z := (flushLoop q' (pending q' 100) out 0 0).1 with hz
    have hzdef : z = applyMarks q' (markedIds (pending q' 100) out 0) := by
      rw [hz, hloop]
    have hin : nextId q ∈ markedIds (pending q' 100) out 0 := by
      rw [markedIds_all_acked _ out 0 hout]
      exact List.mem_map.mpr ⟨rnew, hmem, rfl⟩
    have hsz : sentFlag z (nextId q) = some true := by
      rw [hzdef, sentFlag_applyMarks, if_pos hin, hq',
        sentFlag_enqueue_fresh q topic payload tsQ]
      rfl
    have hznd : (z.map (·.id)).Nodup := by
      rw [hzdef, map_id_applyMarks]
      exact hwf'
    obtain ⟨a, haz, haid, hasent⟩ := sentFlag_some hsz
    have hmapz : z.map (·.id) = q'.map (·.id) := by
      rw [hzdef, map_id_applyMarks]
    have hmaxz : maxId z = nextId q := by
      rw [maxId_eq_of_map_id hmapz, hq', maxId_enqueue]
    have hzne : z.isEmpty = false := by
      cases hzc : z with
      | nil => rw [hzc] at haz; cases haz
      | cons b l => simp
    have hthr : pruneThr z 5000 = (maxId z : Int) - 5000 := by
      rw [pruneThr, hzne]
      simp
    have hap : a ∈ prune z 5000 := by
      unfold prune
      refine List.mem_filter.mpr ⟨haz, ?_⟩
      rw [hthr, hmaxz, haid]
      simp only [Bool.not_eq_true', Bool.and_eq_false_iff, decide_eq_false_iff_not]
      right
      omega
    have hpnd : ((prune z 5000).map (·.id)).Nodup :=
      hznd.sublist ((List.filter_sublist _).map _)
    have h7 := sentFlag_eq_of_mem hpnd hap
    rw [haid] at h7
    rw [h7, hasent]

theorem opportunistic_publish_never_marks_sent_witness :
    (poll_device roundId busConst "PL" "spm1" [] 1 "t1" "t2" (some outAllAcked)
        none PubOutcome.acked).1 =
      enqueue_to_db [] "spm1"
        (make_payload (read_all_data roundId busConst 1 DEVICE_META).1 "PL" 1
          "t1") "t2" ∧
    sentFlag (poll_device roundId busConst "PL" "spm1" [] 1 "t1" "t2"
        (some outAllAcked) none PubOutcome.acked).1 (nextId []) = some false ∧
    make_payload (read_all_data roundId busConst 1 DEVICE_META).1 "PL" 1
        "t1" ∈
      (attempted (pending (poll_device roundId busConst "PL" "spm1" [] 1 "t1"
        "t2" (some outAllAcked) none PubOutcome.acked).1 100) outAllAcked
          0).map (·.payload) ∧
    sentFlag (flush_db_queue (some outAllAcked)
        (poll_device roundId busConst "PL" "spm1" [] 1 "t1" "t2"
          (some outAllAcked) none PubOutcome.acked).1 100).1 (nextId []) =
      some true :=
  opportunistic_publish_never_marks_sent roundId busConst "PL" "spm1" [] 1
    "t1" "t2" (some outAllAcked) none PubOutcome.acked outAllAcked (by decide)
    (by decide) (fun k => rfl)

theorem flush_ascending_order_no_unacked_witness :
    sentFlag (flush_db_queue (some outAllAcked) qPair 100).1
      ((pending qPair 100).get ⟨0, by decide⟩).id ≠ some false ∧
    (pending qPair 100).Sorted (fun a b => a.id ≤ b.id) :=
  flush_ascending_order_no_unacked qPair outAllAcked 100 (by decide)
    (fun j => by simp [outAllAcked]) 0 1 (by decide) (by decide) (by decide)

theorem numTokC_facts {c : Char} (h : isNumTokC c = true) :
    c ≠ ',' ∧ c ≠ '}' ∧ c ≠ '"' ∧ c.isWhitespace = false := by
  simp [isNumTokC] at h
  rcases h with rfl | rfl | rfl | rfl | rfl | rfl | rfl | rfl | rfl | rfl |
    rfl | rfl | rfl | rfl | rfl <;> exact ⟨by decide, by decide, by decide, by decide⟩

theorem jstrL_append (s r : List Char) :
    jstrL s ++ r = '"' :: (escL s ++ '"' :: r) := by
  rw [jstrL]
  simp [List.append_assoc]

theorem pLit_append (l r : List Char) : pLit l (l ++ r) = some r := by
  induction l with
  | nil => rfl
  | cons c cs ih => simp [pLit, ih]

theorem pLit_keyColon (key y : List Char) :
    pLit (keyColon key) (jstrL key ++ ':' :: y) = some y := by
  have h : jstrL key ++ ':' :: y = keyColon key ++ y := by
    rw [keyColon, List.append_assoc]
    rfl
  rw [h, pLit_append]

theorem expectChar_cons (c : Char) (s : List Char) :
    expectChar c (c :: s) = some s := by
  simp [expectChar]

theorem pStrAux_quote (r : List Char) : pStrAux ('"' :: r) = some ([], r) := by
  rw [pStrAux.eq_def]
  simp

theorem pStrAux_esc (c2 : Char) (r2 : List Char) :
    pStrAux ('\\' :: c2 :: r2) =
      (pStrAux r2).map fun pr => (c2 :: pr.1, pr.2) := by
  rw [pStrAux.eq_def]
  simp

theorem pStrAux_plain {c : Char} (h1 : c ≠ '"') (h2 : c ≠ '\\')
    (r : List Char) :
    pStrAux (c :: r) = (pStrAux r).map fun pr => (c :: pr.1, pr.2) := by
  rw [pStrAux.eq_def]
  simp [h1, h2]

theorem pStrAux_escape (s r : List Char) :
    pStrAux (escL s ++ '"' :: r) = some (s, r) := by
  induction s with
  | nil => simp [escL, pStrAux_quote]
  | cons c cs ih =>
    rw [escL]
    by_cases h1 : c = '"'
    · subst h1
      have he : escC '"' = ['\\', '"'] := rfl
      rw [he]
      simp [pStrAux_esc, ih]
    · by_cases h2 : c = '\\'
      · subst h2
        have he : escC '\\' = ['\\', '\\'] := rfl
        rw [he]
        simp [pStrAux_esc, ih]
      · have he : escC c = [c] := by simp [escC, h1, h2]
        rw [he]
        simp [pStrAux_plain h1 h2, ih]

theorem pStr_jstrL (s r : List Char) : pStr (jstrL s ++ r) = some (s, r) := by
  rw [jstrL_append]
  simp [pStr, pStrAux_escape]

theorem pField_print (key v rest : List Char) :
    pField key (jstrL key ++ ':' :: (jstrL v ++ rest)) = some (v, rest) := by
  unfold pField
  rw [pLit_keyColon]
  exact pStr_jstrL v rest

theorem pTok_print (v : List Char) (d : Char) (r : List Char)
    (hv : ∀ c ∈ v, isNumTokC c = true) (hd : d = ',' ∨ d = '}') :
    pTok (v ++ d :: r) = some (v, d :: r) := by
  induction v with
  | nil => rcases hd with rfl | rfl <;> simp [pTok]
  | cons c cs ih =>
    have hf := numTokC_facts (hv c (List.mem_cons_self c cs))
    simp [pTok, hf.1, hf.2.1,
      ih fun x hx => hv x (List.mem_cons_of_mem c hx)]

theorem sepByComma_measItem_head (p : List Char × List Char)
    (ms : List (List Char × List Char)) :
    ∃ t, sepByComma ((p :: ms).map measItemL) = '"' :: t := by
  cases ms with
  | nil => exact ⟨_, rfl⟩
  | cons x xs => exact ⟨_, rfl⟩

theorem measItemL_length (p : List Char × List Char) :
    3 ≤ (measItemL p).length := by
  simp [measItemL, jstrL]
  omega

theorem sepByComma_measItem_length (p : List Char × List Char)
    (ms : List (List Char × List Char)) :
    (p :: ms).length ≤ (sepByComma ((p :: ms).map measItemL)).length := by
  induction ms generalizing p with
  | nil =>
    have := measItemL_length p
    simp [sepByComma]
    omega
  | cons x xs ih =>
    have h1 := ih x
    have h2 := measItemL_length p
    show (p :: x :: xs).length ≤
      (measItemL p ++ ',' :: sepByComma ((x :: xs).map measItemL)).length
    simp only [List.length_append, List.length_cons] at h1 h2 ⊢
    omega

theorem pMeasItems_print (p : List Char × List Char)
    (ms : List (List Char × List Char)) (fuel : Nat) (r : List Char)
    (hfuel : ms.length < fuel)
    (hv : ∀ x ∈ p :: ms, ∀ c ∈ x.2, isNumTokC c = true) :
    pMeasItems fuel (sepByComma ((p :: ms).map measItemL) ++ '}' :: r) =
      some (p :: ms, r) := by
  induction ms generalizing p fuel r with
  | nil =>
    cases fuel with
    | zero => omega
    | succ f =>
      have hshape : sepByComma ([p].map measItemL) ++ '}' :: r =
          jstrL p.1 ++ ':' :: (p.2 ++ '}' :: r) := by
        simp [sepByComma, measItemL, List.append_assoc]
      have htok := pTok_print p.2 '}' r
        (hv p (List.mem_cons_self p [])) (Or.inr rfl)
      rw [hshape, pMeasItems, pStr_jstrL]
      simp [expectChar_cons, htok]
  | cons x xs ih =>
    cases fuel with
    | zero => omega
    | succ f =>
      have hshape : sepByComma ((p :: x :: xs).map measItemL) ++ '}' :: r =
          jstrL p.1 ++ ':' :: (p.2 ++ ',' ::
            (sepByComma ((x :: xs).map measItemL) ++ '}' :: r)) := by
        simp [sepByComma, measItemL, List.append_assoc]
      have htok := pTok_print p.2 ','
        (sepByComma ((x :: xs).map measItemL) ++ '}' :: r)
        (hv p (List.mem_cons_self p (x :: xs))) (Or.inl rfl)
      have hih := ih x f r (by simp only [List.length_cons] at hfuel; omega)
        (fun y hy => hv y (List.mem_cons_of_mem p hy))
      set S := sepByComma ((x :: xs).map measItemL) with hS
      rw [hshape, pMeasItems, pStr_jstrL]
      simp [expectChar_cons, htok, hih]

theorem pMeasObj_print (msL : List (List Char × List Char)) (r : List Char)
    (hv : ∀ x ∈ msL, ∀ c ∈ x.2, isNumTokC c = true) :
    pMeasObj (measuresObjL msL ++ r) = some (msL, r) := by
  cases msL with
  | nil => simp [measuresObjL, sepByComma, pMeasObj]
  | cons p ms =>
    obtain ⟨t, ht⟩ := sepByComma_measItem_head p ms
    have hshape : measuresObjL (p :: ms) ++ r = '{' :: '"' :: (t ++ '}' :: r) := by
      rw [measuresObjL, ht]
      simp [List.append_assoc]
    have hback : sepByComma ((p :: ms).map measItemL) ++ '}' :: r =
        '"' :: (t ++ '}' :: r) := by
      rw [ht]
      rfl
    rw [hshape]
    simp only [pMeasObj]
    rw [if_pos trivial, if_neg (by decide), ← hback]
    refine pMeasItems_print p ms _ r ?_ hv
    have hlen := sepByComma_measItem_length p ms
    simp only [List.length_append, List.length_cons] at hlen ⊢
    omega

theorem pVal_jstrL (v r : List Char) : pVal (jstrL v ++ r) = some r := by
  rw [jstrL_append]
  simp [pVal, pStr, pStrAux_escape]

theorem pVal_measObj (msL : List (List Char × List Char)) (r : List Char)
    (hv : ∀ x ∈ msL, ∀ c ∈ x.2, isNumTokC c = true) :
    pVal (measuresObjL msL ++ r) = some r := by
  have hobj := pMeasObj_print msL r hv
  have hform : measuresObjL msL ++ r =
      '{' :: (sepByComma (msL.map measItemL) ++ '}' :: r) := by
    rw [measuresObjL]
    simp [List.append_assoc]
  rw [hform] at hobj ⊢
  simp [pVal, hobj]

theorem map_data_roundtrip (ms : List (String × String)) :
    (ms.map fun p => (p.1.data, p.2.data)).map
      (fun p => (String.mk p.1, String.mk p.2)) = ms := by
  rw [List.map_map]
  have h : ((fun p : List Char × List Char => (String.mk p.1, String.mk p.2)) ∘
      fun p : String × String => (p.1.data, p.2.data)) = fun p => p := by
    funext p
    rfl
  rw [h, List.map_id']

theorem chars2nat_append_digit (l : List Char) (c : Char) :
    chars2nat (l ++ [c]) = chars2nat l * 10 + (c.toNat - 48) := by
  unfold chars2nat
  rw [List.foldl_append]
  rfl

theorem chars2nat_natChars (fuel n : Nat) (h : n < fuel) :
    chars2nat (natChars fuel n) = n := by
  induction fuel generalizing n with
  | zero => omega
  | succ f ih =>
    rw [natChars]
    by_cases h10 : n < 10
    · rw [if_pos h10]
      have hd : ∀ m, m < 10 → chars2nat [Nat.digitChar m] = m := by decide
      exact hd n h10
    · rw [if_neg h10, chars2nat_append_digit, ih (n / 10) (by omega)]
      have hd : ∀ m, m < 10 → (Nat.digitChar m).toNat - 48 = m := by decide
      rw [hd (n % 10) (by omega)]
      omega

theorem chars2nat_str_of_int (n : Nat) :
    chars2nat (str_of_int n).data = n :=
  chars2nat_natChars (n + 1) n (by omega)

theorem decode_make_payload_eq (ms : List (String × String)) (place : String)
    (device_id : Nat) (ts : String)
    (hv : ∀ p ∈ ms, isNumTok p.2 = true) :
    decode (make_payload ms place device_id ts) =
      some ⟨ts, place, str_of_int device_id, ms⟩ := by
  have hvL : ∀ x ∈ ms.map fun p => (p.1.data, p.2.data),
      ∀ c ∈ x.2, isNumTokC c = true := by
    intro x hx c hc
    obtain ⟨pp, hpp, rfl⟩ := List.mem_map.mp hx
    have h2 := hv pp hpp
    rw [isNumTok] at h2
    simp at h2
    exact h2.2 c hc
  have hobj := pMeasObj_print (ms.map fun p => (p.1.data, p.2.data)) ['}'] hvL
  have hdata : (make_payload ms place device_id ts).data =
      payloadL (ms.map fun p => (p.1.data, p.2.data)) place.data
        (str_of_int device_id).data ts.data := rfl
  unfold decode
  rw [hdata, payloadL]
  simp only [List.append_assoc, List.cons_append, List.singleton_append]
  simp only [expectChar_cons, Option.some_bind, pField_print, pLit_keyColon,
    hobj]
  simp [map_data_roundtrip]
  have h : ((fun p : List Char × List Char =>
        ((⟨p.1⟩ : String), (⟨p.2⟩ : String))) ∘
      fun p : String × String => (p.1.data, p.2.data)) =
      fun p : String × String => p := by
    funext p
    rfl
  rw [h, List.map_id']

theorem topKeysAux_strfield (fuel : Nat) (k v rest : List Char) :
    topKeysAux (fuel + 1) (jstrL k ++ ':' :: (jstrL v ++ ',' :: rest)) =
      (topKeysAux fuel rest).map fun l => String.mk k :: l := by
  rw [topKeysAux, pStr_jstrL]
  simp [expectChar_cons, pVal_jstrL]

theorem topKeysAux_last_measures (fuel : Nat) (k : List Char)
    (msL : List (List Char × List Char))
    (hv : ∀ x ∈ msL, ∀ c ∈ x.2, isNumTokC c = true) :
    topKeysAux (fuel + 1) (jstrL k ++ ':' :: (measuresObjL msL ++ ['}'])) =
      some [String.mk k] := by
  rw [topKeysAux, pStr_jstrL]
  simp [expectChar_cons, pVal_measObj msL ['}'] hv]

theorem topKeys_payload (msL : List (List Char × List Char))
    (pld did tsd : List Char)
    (hv : ∀ x ∈ msL, ∀ c ∈ x.2, isNumTokC c = true) :
    topKeysAux (jstrL kTimestamp ++ ':' :: (jstrL tsd ++ ',' ::
        (jstrL kPlace ++ ':' :: (jstrL pld ++ ',' ::
        (jstrL kDeviceId ++ ':' :: (jstrL did ++ ',' ::
        (jstrL kMeasures ++ ':' ::
          (measuresObjL msL ++ ['}'])))))))).length
      (jstrL kTimestamp ++ ':' :: (jstrL tsd ++ ',' ::
        (jstrL kPlace ++ ':' :: (jstrL pld ++ ',' ::
        (jstrL kDeviceId ++ ':' :: (jstrL did ++ ',' ::
        (jstrL kMeasures ++ ':' ::
          (measuresObjL msL ++ ['}'])))))))) =
      some ["timestamp", "place", "device_id", "measures"] := by
  set T := jstrL kTimestamp ++ ':' :: (jstrL tsd ++ ',' ::
      (jstrL kPlace ++ ':' :: (jstrL pld ++ ',' ::
      (jstrL kDeviceId ++ ':' :: (jstrL did ++ ',' ::
      (jstrL kMeasures ++ ':' ::
        (measuresObjL msL ++ ['}']))))))) with hT
  obtain ⟨f, hf⟩ : ∃ f, T.length = f + 4 := by
    refine ⟨T.length - 4, ?_⟩
    have h4 : 4 ≤ T.length := by
      rw [hT]
      simp [jstrL]
      omega
    omega
  rw [hf, hT]
  rw [show f + 4 = (f + 3) + 1 from rfl, topKeysAux_strfield]
  rw [show f + 3 = (f + 2) + 1 from rfl, topKeysAux_strfield]
  rw [show f + 2 = (f + 1) + 1 from rfl, topKeysAux_strfield]
  rw [topKeysAux_last_measures f kMeasures msL hv]
  rfl

theorem wsOut_in_esc (c2 : Char) (r2 : List Char) :
    wsOut ('\\' :: c2 :: r2) true = wsOut r2 true := by
  rw [wsOut.eq_def]
  simp

theorem wsOut_in_quote (r : List Char) :
    wsOut ('"' :: r) true = wsOut r false := by
  rw [wsOut.eq_def]
  simp

theorem wsOut_in_plain {c : Char} (h1 : c ≠ '\\') (h2 : c ≠ '"')
    (r : List Char) : wsOut (c :: r) true = wsOut r true := by
  rw [wsOut.eq_def]
  simp [h1, h2]

theorem wsOut_out_quote (r : List Char) :
    wsOut ('"' :: r) false = wsOut r true := by
  rw [wsOut.eq_def]
  simp

theorem wsOut_out_nonws (c : Char) (h1 : c ≠ '"')
    (h2 : c.isWhitespace = false) (r : List Char) :
    wsOut (c :: r) false = wsOut r false := by
  rw [wsOut.eq_def]
  simp [h1, h2]

theorem wsOut_escape (s r : List Char) :
    wsOut (escL s ++ '"' :: r) true = wsOut r false := by
  induction s with
  | nil => simp [escL, wsOut_in_quote]
  | cons c cs ih =>
    rw [escL]
    by_cases h1 : c = '"'
    · subst h1
      have he : escC '"' = ['\\', '"'] := rfl
      rw [he]
      simp [wsOut_in_esc, ih]
    · by_cases h2 : c = '\\'
      · subst h2
        have he : escC '\\' = ['\\', '\\'] := rfl
        rw [he]
        simp [wsOut_in_esc, ih]
      · have he : escC c = [c] := by simp [escC, h1, h2]
        rw [he]
        simp [wsOut_in_plain h2 h1, ih]

theorem wsOut_jstrL (s r : List Char) :
    wsOut (jstrL s ++ r) false = wsOut r false := by
  rw [jstrL_append, wsOut_out_quote, wsOut_escape]

theorem wsOut_token (v r : List Char)
    (hv : ∀ c ∈ v, isNumTokC c = true) :
    wsOut (v ++ r) false = wsOut r false := by
  induction v with
  | nil => rfl
  | cons c cs ih =>
    have hf := numTokC_facts (hv c (List.mem_cons_self c cs))
    rw [List.cons_append, wsOut_out_nonws c hf.2.2.1 hf.2.2.2]
    exact ih fun x hx => hv x (List.mem_cons_of_mem c hx)

theorem wsOut_sep (p : List Char × List Char)
    (ms : List (List Char × List Char)) (r : List Char)
    (hv : ∀ x ∈ p :: ms, ∀ c ∈ x.2, isNumTokC c = true) :
    wsOut (sepByComma ((p :: ms).map measItemL) ++ r) false = wsOut r false := by
  induction ms generalizing p r with
  | nil =>
    have hsh : sepByComma ([p].map measItemL) ++ r =
        jstrL p.1 ++ ':' :: (p.2 ++ r) := by
      simp [sepByComma, measItemL, List.append_assoc]
    rw [hsh, wsOut_jstrL, wsOut_out_nonws ':' (by decide) (by decide),
      wsOut_token p.2 r (hv p (List.mem_cons_self p []))]
  | cons x xs ih =>
    have hsh : sepByComma ((p :: x :: xs).map measItemL) ++ r =
        jstrL p.1 ++ ':' ::
          (p.2 ++ ',' :: (sepByComma ((x :: xs).map measItemL) ++ r)) := by
      simp [sepByComma, measItemL, List.append_assoc]
    rw [hsh, wsOut_jstrL, wsOut_out_nonws ':' (by decide) (by decide),
      wsOut_token p.2 _ (hv p (List.mem_cons_self p (x :: xs))),
      wsOut_out_nonws ',' (by decide) (by decide)]
    exact ih x r fun y hy => hv y (List.mem_cons_of_mem p hy)

theorem wsOut_measObj (msL : List (List Char × List Char)) (r : List Char)
    (hv : ∀ x ∈ msL, ∀ c ∈ x.2, isNumTokC c = true) :
    wsOut (measuresObjL msL ++ r) false = wsOut r false := by
  cases msL with
  | nil =>
    have h : measuresObjL [] ++ r = '{' :: '}' :: r := by
      simp [measuresObjL, sepByComma]
    rw [h, wsOut_out_nonws '{' (by decide) (by decide),
      wsOut_out_nonws '}' (by decide) (by decide)]
  | cons p ms =>
    have h : measuresObjL (p :: ms) ++ r =
        '{' :: (sepByComma ((p :: ms).map measItemL) ++ '}' :: r) := by
      rw [measuresObjL]
      simp [List.append_assoc]
    rw [h, wsOut_out_nonws '{' (by decide) (by decide),
      wsOut_sep p ms ('}' :: r) hv,
      wsOut_out_nonws '}' (by decide) (by decide)]

theorem numTok_map_data (ms : List (String × String))
    (hv : ∀ p ∈ ms, isNumTok p.2 = true) :
    ∀ x ∈ ms.map fun p => (p.1.data, p.2.data),
      ∀ c ∈ x.2, isNumTokC c = true := by
  intro x hx c hc
  obtain ⟨pp, hpp, rfl⟩ := List.mem_map.mp hx
  have h2 := hv pp hpp
  rw [isNumTok] at h2
  simp at h2
  exact h2.2 c hc

theorem topKeys_cons_brace (T : List Char) (s : String)
    (h : s.data = '{' :: T) : topKeys s = topKeysAux T.length T := by
  unfold topKeys
  rw [h]
  rfl

/-- C8.  The encoded payload has exactly the four top-level fields
`timestamp`, `place`, `device_id`, `measures` in that fixed order; the
`measures` member keys appear in the insertion order of the reading; the
`device_id` field carries the stringified id; and the encoding is compact —
no whitespace occurs outside string literals.  (Determinism is immediate:
the encoder is a pure function of its arguments.) -/
theorem make_payload_fields (ms : List (String × String)) (place : String)
    (device_id : Nat) (ts : String)
    (hv : ∀ p ∈ ms, isNumTok p.2 = true) :
    topKeys (make_payload ms place device_id ts) =
      some ["timestamp", "place", "device_id", "measures"] ∧
    (decode (make_payload ms place device_id ts)).map
      (fun b => b.measures.map Prod.fst) = some (ms.map Prod.fst) ∧
    (decode (make_payload ms place device_id ts)).map MessageBody.device_id =
      some (str_of_int device_id) ∧
    wsOut (make_payload ms place device_id ts).data false = 0 := by
  have hvL := numTok_map_data ms hv
  have hd := decode_make_payload_eq ms place device_id ts hv
  have hform : (make_payload ms place device_id ts).data =
      '{' :: (jstrL kTimestamp ++ ':' :: (jstrL ts.data ++ ',' ::
        (jstrL kPlace ++ ':' :: (jstrL place.data ++ ',' ::
        (jstrL kDeviceId ++ ':' :: (jstrL (str_of_int device_id).data ++ ',' ::
        (jstrL kMeasures ++ ':' ::
          (measuresObjL (ms.map fun p => (p.1.data, p.2.data)) ++
            ['}'])))))))) := by
    rw [show (make_payload ms place device_id ts).data =
        payloadL (ms.map fun p => (p.1.data, p.2.data)) place.data
          (str_of_int device_id).data ts.data from rfl, payloadL]
    simp [List.append_assoc]
  refine ⟨?_, ?_, ?_, ?_⟩
  · rw [topKeys_cons_brace _ _ hform]
    have h9 := topKeys_payload (ms.map fun p => (p.1.data, p.2.data)) place.data
      (str_of_int device_id).data ts.data hvL
    exact h9
  · rw [hd]
    rfl
  · rw [hd]
    rfl
  · rw [hform, wsOut_out_nonws '{' (by decide) (by decide), wsOut_jstrL,
      wsOut_out_nonws ':' (by decide) (by decide), wsOut_jstrL,
      wsOut_out_nonws ',' (by decide) (by decide), wsOut_jstrL,
      wsOut_out_nonws ':' (by decide) (by decide), wsOut_jstrL,
      wsOut_out_nonws ',' (by decide) (by decide), wsOut_jstrL,
      wsOut_out_nonws ':' (by decide) (by decide), wsOut_jstrL,
      wsOut_out_nonws ',' (by decide) (by decide), wsOut_jstrL,
      wsOut_out_nonws ':' (by decide) (by decide),
      wsOut_measObj (ms.map fun p => (p.1.data, p.2.data)) ['}'] hvL,
      wsOut_out_nonws '}' (by decide) (by decide)]
    rfl

theorem make_payload_fields_witness :
    topKeys (make_payload [("ac_v_a", "219.7")] "PKG" 7 "2024-01-02 03:04:05") =
      some ["timestamp", "place", "device_id", "measures"] ∧
    (decode (make_payload [("ac_v_a", "219.7")] "PKG" 7
        "2024-01-02 03:04:05")).map (fun b => b.measures.map Prod.fst) =
      some (([("ac_v_a", "219.7")] : List (String × String)).map Prod.fst) ∧
    (decode (make_payload [("ac_v_a", "219.7")] "PKG" 7
        "2024-01-02 03:04:05")).map MessageBody.device_id =
      some (str_of_int 7) ∧
    wsOut (make_payload [("ac_v_a", "219.7")] "PKG" 7
        "2024-01-02 03:04:05").data false = 0 :=
  make_payload_fields [("ac_v_a", "219.7")] "PKG" 7 "2024-01-02 03:04:05"
    (by decide)

/-- C9.  Decoding an encoded payload recovers the original triple: the
measures mapping, the place, and the stringified device id, from which the
numeric id itself is recovered by reading the decimal digits back. -/
theorem decode_encode_roundtrip (ms : List (String × String)) (place : String)
    (device_id : Nat) (ts : String) (hms : ms ≠ [])
    (hv : ∀ p ∈ ms, isNumTok p.2 = true) :
    decode (make_payload ms place device_id ts) =
      some ⟨ts, place, str_of_int device_id, ms⟩ ∧
    chars2nat (str_of_int device_id).data = device_id :=
  ⟨decode_make_payload_eq ms place device_id ts hv,
   chars2nat_str_of_int device_id⟩

theorem decode_encode_roundtrip_witness :
    decode (make_payload [("ac_v_a", "219.7")] "PKG" 37 "2024-01-02 03:04:05") =
      some ⟨"2024-01-02 03:04:05", "PKG", str_of_int 37, [("ac_v_a", "219.7")]⟩ ∧
    chars2nat (str_of_int 37).data = 37 :=
  decode_encode_roundtrip [("ac_v_a", "219.7")] "PKG" 37 "2024-01-02 03:04:05"
    (by decide) (by decide)

end Spm1
